import Mathlib

/-
Shallow embedding of the tick_manager_rs coordination core
(src/tickmanager/manager.rs, src/tickmanager/tickmanager_handle.rs,
src/tick_hook.rs).

Modelling conventions:
- `Instant` and `Duration` are modelled as exact rationals (ℚ);
  `Duration::from_secs_f64(1.0 / fps)` is modelled as the exact rational
  1/fps, and the f64 rounding to nanoseconds is not modelled.
- `usize` is modelled as `Nat` reduced modulo `USIZE = 2^64`
  (a 64-bit platform); `wrapping_add(1)` becomes `(c + 1) % USIZE`.
- The `HashMap<MemberID, (SpeedFactor, MemberInfo)>` is modelled as an
  association list `List (Nat × Nat × MemberInfo)`; `HashMap::get` /
  `get_mut` become `mapGet` / first-occurrence update, `insert` replaces
  any entry with the same key, `remove` deletes it.
- A flume `Sender<TickStateReply>` is identified by a channel id (`Nat`);
  a tick delivery is observed as the list of channel ids that get sent
  a `Tick`.
-/

namespace TickManagerRs

/-- Member states from manager.rs: `Finished`, `Running`, `Hidden`. -/
inductive MemberState where
  | finished
  | running
  | hidden
deriving DecidableEq

/-- Replies sent to tick hooks (`TickStateReply` in manager.rs). -/
inductive TickStateReply where
  | selfID (id : Nat)
  | memberID (id : Nat)
  | tick
deriving DecidableEq

/-- Cadence configuration (`Speed` in manager.rs): fixed frequency or
fixed interval. -/
inductive Speed where
  | fps (n : Nat)
  | interval (dur : ℚ)
deriving DecidableEq

/-- Embeds `Speed::get_duration`: 1/fps for `Fps`, the stored duration for
`Interval`. -/
def Speed.get_duration : Speed → ℚ
  | .fps n => 1 / (n : ℚ)
  | .interval dur => dur

/-- Embeds `Speed::new_frame`: whether a new main frame may start, i.e.
`last_frame + duration <= Instant::now()`. -/
def Speed.new_frame (s : Speed) (last_frame now : ℚ) : Bool :=
  match s with
  | .fps n => decide (last_frame + 1 / (n : ℚ) ≤ now)
  | .interval dur => decide (last_frame + dur ≤ now)

/-- Validity of a configuration for the rational time model: an `Fps`
rate must be positive (in the source, `Speed::Fps(0)` makes
`Duration::from_secs_f64(1.0/0.0)` panic instead of returning). -/
def Speed.ratePositive : Speed → Prop
  | .fps n => 0 < n
  | .interval _ => True

/-- The period exactly as the spec words it: `1/rate` for a
fixed-frequency configuration, the explicit duration for a fixed-interval
configuration. -/
def specPeriod : Speed → ℚ
  | .fps rate => 1 / (rate : ℚ)
  | .interval d => d

/-- Per-member record (`MemberInfo` in manager.rs): reply channel id,
current state, time of last tick received. -/
structure MemberInfo where
  sender : Nat
  state : MemberState
  last_tick : ℚ
deriving DecidableEq

/-- The registry (`InternalMap = HashMap<MemberID, (SpeedFactor, MemberInfo)>`),
as an association list of `(member_id, (speed_factor, info))`. -/
abbrev InternalMap : Type := List (Nat × Nat × MemberInfo)

/-- Embeds `HashMap::get` on the registry: the value at the first entry
whose key matches. -/
def mapGet (id : Nat) : InternalMap → Option (Nat × MemberInfo)
  | [] => none
  | e :: rest => if e.1 = id then some e.2 else mapGet id rest

/-- Embeds `HashMap::remove`: drop every entry with the given key. -/
def mapRemove (id : Nat) (m : InternalMap) : InternalMap :=
  List.filter (fun e => e.1 ≠ id) m

/-- Embeds `HashMap::insert`: the new entry replaces any entry with the
same key. -/
def mapInsert (id : Nat) (v : Nat × MemberInfo) (m : InternalMap) : InternalMap :=
  (id, v) :: mapRemove id m

/-- Embeds the `get_mut` + `member_info.state = state` update of
`ChangeMemberState`: set the state field at the first entry with the
given key, leaving everything else untouched. -/
def setStateAt (id : Nat) (st : MemberState) : InternalMap → InternalMap
  | [] => []
  | e :: rest =>
      if e.1 = id then (e.1, e.2.1, { e.2.2 with state := st }) :: rest
      else e :: setStateAt id st rest

/-- Modulus of `usize` on the modelled 64-bit platform. -/
def USIZE : Nat := 2 ^ 64

/-- Embeds `usize` wrapping increment: both `main_tick_counter.wrapping_add(1)`
and the wrap-on-overflow of `amount_of_members.fetch_add(1)` on the
`AtomicUsize` id counter. -/
def wrappingIncr (c : Nat) : Nat := (c + 1) % USIZE

/-- Commands carried by the command channel (`TickCommand`), as matched
by the coordination loop in manager.rs. -/
inductive TickCommand where
  | register (sender : Nat) (speed_factor : Nat)
  | changeMemberState (id : Nat) (st : MemberState)
  | unregister (id : Nat)
  | shutdown
deriving DecidableEq

/-- State owned by the coordination loop: the registry, the
`amount_of_members` id counter, the time of the last accepted main tick
(`instant`), and `main_tick_counter`. -/
structure LoopState where
  member_map : InternalMap
  amount_of_members : Nat
  instant : ℚ
  main_tick_counter : Nat
deriving DecidableEq

/-- Loop state right after `TickManager::new` at time `now`: empty map,
id counter 0, `instant = now`, tick counter 0. -/
def TickManager.initial (now : ℚ) : LoopState :=
  { member_map := [], amount_of_members := 0, instant := now, main_tick_counter := 0 }

/-- Embeds the processing of one non-`Shutdown` command by the match in
`TickManager::start`; returns the new state and the replies sent
(channel id, reply). `Register` assigns the current
`amount_of_members` as the id (the value `fetch_add(1)` returns), stores
the counter incremented with `usize` wrap-around, replies `SelfID(id)`,
and inserts a record with the zero-normalized speed factor, state
`Running` and `last_tick = now`. `ChangeMemberState` and `Unregister`
send no reply. -/
def processCommand (s : LoopState) (now : ℚ) :
    TickCommand → LoopState × List (Nat × TickStateReply)
  | .register sender sf =>
      let id := s.amount_of_members
      ({ s with
          member_map :=
            mapInsert id
              (if sf = 0 then 1 else sf,
               { sender := sender, state := .running, last_tick := now }) s.member_map,
          amount_of_members := wrappingIncr id },
       [(sender, .selfID id)])
  | .changeMemberState id st =>
      ({ s with member_map := setStateAt id st s.member_map }, [])
  | .unregister id =>
      ({ s with member_map := mapRemove id s.member_map }, [])
  | .shutdown => (s, [])

/-- Embeds the command-draining `while let Ok(command) = try_recv()` loop:
commands are processed in arrival order; the instant a `Shutdown` is
dequeued the loop returns (flag `true`), without touching later
commands. -/
def drainCommands (s : LoopState) (now : ℚ) :
    List TickCommand → LoopState × List (Nat × TickStateReply) × Bool
  | [] => (s, [], false)
  | c :: rest =>
      match c with
      | .shutdown => (s, [], true)
      | _ =>
          let p := processCommand s now c
          let q := drainCommands p.1 now rest
          (q.1, p.2 ++ q.2.1, q.2.2)

/-- The due filter of the loop: `main_tick_counter % sf_nonzero == 0`
with `sf_nonzero = if sf == 0 { 1 } else { sf }`. -/
def isDue (counter sf : Nat) : Bool :=
  counter % (if sf = 0 then 1 else sf) == 0

/-- Embeds the due-set computation: ids of all registered members whose
(zero-normalized) speed factor divides the tick counter, in registry
order. -/
def dueMembers (m : InternalMap) (counter : Nat) : List Nat :=
  List.map (fun e => e.1) (List.filter (fun e => isDue counter e.2.1) m)

/-- Readiness of a state for the gate: `matches!(state, Finished | Hidden)`. -/
def isReady : MemberState → Bool
  | .finished => true
  | .running => false
  | .hidden => true

/-- Embeds the `all_ready` gate check: every due id whose record is still
present is `Finished` or `Hidden`; an id with no record counts as ready
(the source's `else { true }` branch). -/
def allReady (m : InternalMap) (due : List Nat) : Bool :=
  due.all fun id =>
    match mapGet id m with
    | some p => isReady p.2.state
    | none => true

/-- Embeds one body of the delivery loop for a single due id: if the
record exists and is `Finished` or `Hidden`, set it to `Running`, stamp
`last_tick = now` and collect its sender; a `Running` record (the
"shouldn't happen" arm) and a missing record are skipped. -/
def deliverTick (id : Nat) (now : ℚ) : InternalMap → InternalMap × Option Nat
  | [] => ([], none)
  | e :: rest =>
      if e.1 = id then
        match e.2.2.state with
        | .running => (e :: rest, none)
        | _ =>
            ((e.1, e.2.1,
              { e.2.2 with state := .running, last_tick := now }) :: rest,
             some e.2.2.sender)
      else
        let p := deliverTick id now rest
        (e :: p.1, p.2)

/-- Embeds the `for id in due_members` delivery loop: update each due
record in order and collect the senders that get a `Tick`. -/
def deliverTicks (now : ℚ) : List Nat → InternalMap → InternalMap × List Nat
  | [], m => (m, [])
  | id :: rest, m =>
      let p := deliverTick id now m
      let q := deliverTicks now rest p.1
      (q.1,
       match p.2 with
       | some sender => sender :: q.2
       | none => q.2)

/-- Embeds the cadence/gate phase of one loop iteration (the block guarded
by `speed.new_frame(*instant_guard)`): when a new frame is allowed, the
counter is incremented (wrapping) and `instant` is set to now before the
due set is computed; ticks are delivered only when the due set is
nonempty and all due members are ready. Returns the new state and the
sender channels that receive a `Tick`. -/
def tickStep (speed : Speed) (s : LoopState) (now : ℚ) : LoopState × List Nat :=
  if speed.new_frame s.instant now then
    let counter := wrappingIncr s.main_tick_counter
    let s1 : LoopState := { s with main_tick_counter := counter, instant := now }
    let due := dueMembers s1.member_map counter
    if due.isEmpty then (s1, [])
    else if allReady s1.member_map due then
      let p := deliverTicks now due s1.member_map
      ({ s1 with member_map := p.1 }, p.2)
    else (s1, [])
  else (s, [])

/-- Outcome of a member-proxy call: either it returns normally or it
panics with a message (a Rust `panic!` / `unwrap` on `Err`). -/
inductive CallOutcome where
  | returned
  | panicked (msg : String)
deriving DecidableEq

/-- Embeds `TickMember::set_state` from tick_hook.rs:
`self.manager_handle.send(TickCommand::ChangeMemberState(self.id, state)).unwrap()`.
The send succeeds iff the manager end of the channel is still alive; the
`.unwrap()` turns a failed send into a panic. Returns the call outcome
and the commands that actually reached the manager's queue. -/
def set_state (managerAlive : Bool) (id : Nat) (st : MemberState) :
    CallOutcome × List TickCommand :=
  if managerAlive then (.returned, [.changeMemberState id st])
  else (.panicked "called Result::unwrap() on an Err value", [])

/-- Result of one bounded-timeout receive (`expect_reply`, 1 s timeout)
on the member's reply channel. -/
inductive RecvResult where
  | timeout
  | reply (r : TickStateReply)
deriving DecidableEq

/-- Embeds the `loop { match expect_reply(..) { Ok(Tick) => break, _ =>
continue } }` of `wait_for_tick`, over the sequence of receive results
the channel produces: returns the index at which the loop breaks (the
first `Tick`), or `none` if the sequence holds no `Tick` (the loop is
still retrying after the whole sequence). -/
def waitLoop : List RecvResult → Option Nat
  | [] => none
  | .reply .tick :: _ => some 0
  | _ :: rest => Option.map (fun i => i + 1) (waitLoop rest)

/-- Embeds `TickMember::wait_for_tick`: first `set_state(Finished)` (which
panics if the manager is gone), then the retry loop on the reply channel.
Returns the outcome of the initial send, the commands sent, and the index
of the receive at which the call returns. -/
def wait_for_tick (managerAlive : Bool) (id : Nat) (stream : List RecvResult) :
    CallOutcome × List TickCommand × Option Nat :=
  match set_state managerAlive id .finished with
  | (.panicked msg, cmds) => (.panicked msg, cmds, none)
  | (.returned, cmds) => (.returned, cmds, waitLoop stream)

/-- Number of `Register` commands a drain actually processes: those that
arrive before the first `Shutdown`. -/
def registerCount : List TickCommand → Nat
  | [] => 0
  | .register _ _ :: rest => registerCount rest + 1
  | .shutdown :: _ => 0
  | _ :: rest => registerCount rest

/-- Member ids handed out (as `SelfID` replies) while draining a command
sequence, in arrival order. -/
def assignedIds (s : LoopState) (now : ℚ) (cmds : List TickCommand) : List Nat :=
  List.filterMap
    (fun r => match r.2 with | .selfID id => some id | _ => none)
    (drainCommands s now cmds).2.1

/-- The ids a run of `k` registrations hands out when the wrapping id
counter currently stores `a`: the counter's value, then the ids from the
wrapped successor. -/
def idsFrom : Nat → Nat → List Nat
  | _, 0 => []
  | a, k + 1 => a :: idsFrom (wrappingIncr a) k

/-- A loop state with an empty registry at time 0 (used as a concrete
evaluation point). -/
def emptyState : LoopState :=
  { member_map := [], amount_of_members := 0, instant := 0, main_tick_counter := 0 }

/-- A registry holding a single `Hidden` member: id 0, speed factor 1,
reply channel 7. -/
def hiddenMap : InternalMap :=
  [(0, 1, { sender := 7, state := .hidden, last_tick := 0 })]

/-- Loop state with the single `Hidden` member registered. -/
def hiddenState : LoopState :=
  { member_map := hiddenMap, amount_of_members := 1, instant := 0, main_tick_counter := 0 }

/-- A registry holding a single member with speed factor 3 (id 0, channel
5, `Hidden`). -/
def factor3Map : InternalMap :=
  [(0, 3, { sender := 5, state := .hidden, last_tick := 0 })]

/-- Claim C4: for every configuration (with a positive rate in the `Fps`
case, since `Speed::Fps(0)` panics in the source) and every pair of
timestamps, `new_frame last now` returns true if and only if
`now ≥ last + period`, where the period is `1/rate` for a fixed-frequency
configuration and the explicit duration for a fixed-interval
configuration. -/
theorem new_frame_iff_period_elapsed (s : Speed) (last now : ℚ)
    (hs : s.ratePositive) :
    s.new_frame last now = true ↔ now ≥ last + specPeriod s := by
  cases s with
  | fps n =>
      simp only [Speed.new_frame, specPeriod, decide_eq_true_eq, ge_iff_le]
  | interval d =>
      simp only [Speed.new_frame, specPeriod, decide_eq_true_eq, ge_iff_le]

/-- Witness for C4 at a concrete configuration: `Fps 60` with
`last = 0`, `now = 1`. -/
theorem new_frame_iff_period_elapsed_witness :
    (Speed.fps 60).ratePositive ∧
      ((Speed.fps 60).new_frame 0 1 = true ↔ (1 : ℚ) ≥ 0 + specPeriod (Speed.fps 60)) := by
  refine ⟨by simp [Speed.ratePositive], ?_⟩
  exact new_frame_iff_period_elapsed (Speed.fps 60) 0 1 (by simp [Speed.ratePositive])

/-- Claim C1 (amended): in every cadence-eligible iteration whose gate
does not open (empty due set, or some due member not ready), no tick is
delivered and every member's record is unchanged — but the global step
counter has already been incremented (wrapping) and the stored time of
last accepted step has already been advanced to `now`. -/
theorem tickStep_gate_closed (speed : Speed) (s : LoopState) (now : ℚ)
    (hframe : speed.new_frame s.instant now = true)
    (hgate : dueMembers s.member_map (wrappingIncr s.main_tick_counter) = [] ∨
      allReady s.member_map (dueMembers s.member_map (wrappingIncr s.main_tick_counter)) = false) :
    tickStep speed s now =
      ({ s with main_tick_counter := wrappingIncr s.main_tick_counter, instant := now }, []) := by
  by_cases hdue : dueMembers s.member_map (wrappingIncr s.main_tick_counter) = []
  · simp [tickStep, hframe, hdue]
  · have hready :
        allReady s.member_map (dueMembers s.member_map (wrappingIncr s.main_tick_counter)) = false := by
      rcases hgate with h | h
      · exact absurd h hdue
      · exact h
    simp [tickStep, hframe, hready, List.isEmpty_iff, hdue]

/-- Counterexample to claim C1 as stated: with an empty registry (so the
due set is empty and the gate cannot open), a cadence-eligible iteration
still changes both the global step counter and the stored time of last
accepted step. -/
theorem gate_closed_counterexample :
    (Speed.interval 1).new_frame emptyState.instant 1 = true ∧
    dueMembers emptyState.member_map (wrappingIncr emptyState.main_tick_counter) = [] ∧
    (tickStep (Speed.interval 1) emptyState 1).1.main_tick_counter ≠
      emptyState.main_tick_counter ∧
    (tickStep (Speed.interval 1) emptyState 1).1.instant ≠ emptyState.instant := by
  have hframe : (Speed.interval 1).new_frame 0 1 = true := by
    norm_num [Speed.new_frame]
  have hstep : tickStep (Speed.interval 1) emptyState 1 =
      ({ emptyState with main_tick_counter := 1, instant := 1 }, []) := by
    simp [tickStep, hframe, emptyState, wrappingIncr, dueMembers, USIZE]
  refine ⟨by simpa [emptyState] using hframe, rfl, ?_, ?_⟩
  · rw [hstep]
    simp [emptyState]
  · rw [hstep]
    simp [emptyState]

/-- Witness for the amended claim C1 at the concrete empty state. -/
theorem tickStep_gate_closed_witness :
    tickStep (Speed.interval 1) emptyState 1 =
      ({ emptyState with
          main_tick_counter := wrappingIncr emptyState.main_tick_counter,
          instant := 1 }, []) :=
  tickStep_gate_closed (Speed.interval 1) emptyState 1
    (by norm_num [Speed.new_frame, emptyState]) (Or.inl rfl)

/-- Counterexample to claim C2 as stated: a due `Hidden` member (factor
1, channel 7) does open the gate and receives the tick, but its state
after delivery is `Running`, not `Hidden` — and on the next cadence step,
where it is due again, the gate finds it `Running` and delivers
nothing. -/
theorem hidden_becomes_running_counterexample :
    dueMembers hiddenState.member_map (wrappingIncr hiddenState.main_tick_counter) = [0] ∧
    allReady hiddenState.member_map [0] = true ∧
    (tickStep (Speed.interval 1) hiddenState 1).2 = [7] ∧
    mapGet 0 (tickStep (Speed.interval 1) hiddenState 1).1.member_map =
      some (1, { sender := 7, state := .running, last_tick := 1 }) ∧
    (tickStep (Speed.interval 1) (tickStep (Speed.interval 1) hiddenState 1).1 2).2 = [] := by
  have hframe : (Speed.interval 1).new_frame 0 1 = true := by
    norm_num [Speed.new_frame]
  have hframe2 : (Speed.interval 1).new_frame 1 2 = true := by
    norm_num [Speed.new_frame]
  have hstep : tickStep (Speed.interval 1) hiddenState 1 =
      ({ member_map := [(0, 1, { sender := 7, state := .running, last_tick := 1 })],
         amount_of_members := 1, instant := 1, main_tick_counter := 1 }, [7]) := by
    simp [tickStep, hframe, hiddenState, hiddenMap, wrappingIncr, dueMembers, isDue, USIZE,
      allReady, mapGet, deliverTicks, deliverTick, isReady]
  have hstep2 : tickStep (Speed.interval 1)
      ({ member_map := [(0, 1, { sender := 7, state := .running, last_tick := 1 })],
         amount_of_members := 1, instant := 1, main_tick_counter := 1 } : LoopState) 2 =
      ({ member_map := [(0, 1, { sender := 7, state := .running, last_tick := 1 })],
         amount_of_members := 1, instant := 2, main_tick_counter := 2 }, []) := by
    simp [tickStep, hframe2, wrappingIncr, dueMembers, isDue, USIZE, allReady, mapGet, isReady]
  refine ⟨?_, ?_, ?_, ?_, ?_⟩
  · simp [hiddenState, hiddenMap, wrappingIncr, dueMembers, isDue, USIZE]
  · simp [allReady, hiddenState, hiddenMap, mapGet, isReady]
  · rw [hstep]
  · rw [hstep]
    simp [mapGet]
  · rw [hstep, hstep2]

/-- Claim C2 (amended): a due `Hidden` member counts as ready for the
gate, and tick delivery collects its reply channel — but delivery sets
its state to `Running` (exactly as for a `Finished` member) and stamps
its last-tick time; the member is not permanently `Hidden` and must
re-declare its state before it can satisfy the gate again. -/
theorem hidden_member_ticked_to_running (id : Nat) (now : ℚ) (m : InternalMap)
    (sf : Nat) (info : MemberInfo)
    (hget : mapGet id m = some (sf, info)) (hst : info.state = .hidden) :
    isReady info.state = true ∧
    (deliverTick id now m).2 = some info.sender ∧
    mapGet id (deliverTick id now m).1 =
      some (sf, { info with state := .running, last_tick := now }) := by
  have key : (deliverTick id now m).2 = some info.sender ∧
      mapGet id (deliverTick id now m).1 =
        some (sf, { info with state := .running, last_tick := now }) := by
    induction m with
    | nil => simp [mapGet] at hget
    | cons e rest ih =>
        obtain ⟨k, sf', info'⟩ := e
        by_cases he : k = id
        · subst he
          simp only [mapGet, if_pos rfl] at hget
          injection hget with hget
          injection hget with h1 h2
          subst h1
          subst h2
          constructor
          · simp [deliverTick, hst]
          · simp [deliverTick, hst, mapGet]
        · simp only [mapGet, if_neg he] at hget
          have hr := ih hget
          constructor
          · simp [deliverTick, he, hr.1]
          · simp [deliverTick, he, mapGet, hr.2]
  exact ⟨by rw [hst]; rfl, key.1, key.2⟩

/-- Witness for the amended claim C2 at the concrete single-member
`Hidden` registry. -/
theorem hidden_member_ticked_to_running_witness :
    isReady MemberState.hidden = true ∧
    (deliverTick 0 1 hiddenMap).2 = some 7 ∧
    mapGet 0 (deliverTick 0 1 hiddenMap).1 =
      some (1, { sender := 7, state := .running, last_tick := 1 }) :=
  hidden_member_ticked_to_running 0 1 hiddenMap 1
    { sender := 7, state := .hidden, last_tick := 0 } rfl rfl

/-- Claim C3, evaluated at the failing input: when the manager is gone,
`set_state` (and the `set_state(Finished)` at the start of
`wait_for_tick`) panics through the `.unwrap()` on the failed send
instead of tolerating the failure silently; only when the manager is
alive does the call return and deliver the command. -/
theorem set_state_panics_when_manager_gone :
    set_state false 0 .running =
      (.panicked "called Result::unwrap() on an Err value", []) ∧
    wait_for_tick false 0 [] =
      (.panicked "called Result::unwrap() on an Err value", [], none) ∧
    set_state true 0 .running = (.returned, [.changeMemberState 0 .running]) :=
  ⟨rfl, rfl, rfl⟩

/-- Counterexample to claim C8 as stated: a member with speed factor 3 is
due at counter value `2^64 - 1` and again at the very next (wrapped)
counter value 0, so across the wrap it is due twice within one step, not
once every 3 steps. -/
theorem wrap_due_gap_counterexample :
    isDue (USIZE - 1) 3 = true ∧
    wrappingIncr (USIZE - 1) = 0 ∧
    isDue (wrappingIncr (USIZE - 1)) 3 = true ∧
    dueMembers factor3Map (USIZE - 1) = [0] ∧
    dueMembers factor3Map (wrappingIncr (USIZE - 1)) = [0] := by
  refine ⟨?_, ?_, ?_, ?_, ?_⟩ <;>
    simp [isDue, wrappingIncr, USIZE, dueMembers, factor3Map]

/-- Claim C8 (amended): the step counter wraps modulo `2^64` (after `n`
accepted steps its stored value is `n % 2^64`), and for a member whose
speed factor `k` divides `2^64` the due computation survives the wrap
intact: the member is due exactly on every `k`-th accepted step. For
factors not dividing `2^64` the wrap shortens one gap (see the
counterexample with factor 3). -/
theorem counter_wrap_and_due_period (k : Nat) (hk : 0 < k) (hdvd : k ∣ USIZE) (n : Nat) :
    wrappingIncr^[n] 0 = n % USIZE ∧
    (isDue (wrappingIncr^[n] 0) k = true ↔ n % k = 0) := by
  have husize : 1 < USIZE := by norm_num [USIZE]
  have hiter : ∀ m : Nat, wrappingIncr^[m] 0 = m % USIZE := by
    intro m
    induction m with
    | zero => simp
    | succ m ih =>
        rw [Function.iterate_succ_apply', ih, wrappingIncr]
        conv_rhs => rw [Nat.add_mod]
        rw [Nat.mod_eq_of_lt husize]
  constructor
  · exact hiter n
  · rw [hiter n, isDue, if_neg (Nat.pos_iff_ne_zero.mp hk), beq_iff_eq,
      Nat.mod_mod_of_dvd n hdvd]

/-- Witness for the amended claim C8: factor 4 divides `2^64`; after 8
accepted steps the counter is 8 and the member is due. -/
theorem counter_wrap_and_due_period_witness :
    0 < 4 ∧ (4 ∣ USIZE) ∧
      (wrappingIncr^[8] 0 = 8 % USIZE ∧ (isDue (wrappingIncr^[8] 0) 4 = true ↔ 8 % 4 = 0)) :=
  ⟨by norm_num, ⟨2 ^ 62, by norm_num [USIZE]⟩,
    counter_wrap_and_due_period 4 (by norm_num) ⟨2 ^ 62, by norm_num [USIZE]⟩ 8⟩

/-- Unfolding lemma: the due set of a cons cell. -/
theorem dueMembers_cons (e : Nat × Nat × MemberInfo) (rest : InternalMap) (c : Nat) :
    dueMembers (e :: rest) c =
      if isDue c e.2.1 then e.1 :: dueMembers rest c else dueMembers rest c := by
  by_cases h : isDue c e.2.1 <;> simp [dueMembers, List.filter_cons, h]

/-- Unfolding lemma: `mapGet` on a cons cell. -/
theorem mapGet_cons (e : Nat × Nat × MemberInfo) (rest : InternalMap) (id : Nat) :
    mapGet id (e :: rest) = if e.1 = id then some e.2 else mapGet id rest := rfl

/-- Every id in the due set is a key of the registry. -/
theorem mem_keys_of_mem_dueMembers {m : InternalMap} {c a : Nat}
    (h : a ∈ dueMembers m c) : a ∈ List.map (fun e => e.1) m := by
  unfold dueMembers at h
  rcases List.mem_map.mp h with ⟨e, he, rfl⟩
  exact List.mem_map.mpr ⟨e, List.mem_of_mem_filter he, rfl⟩

/-- Claim C5: `Register(speedFactor)` stores the speed factor unchanged
when it is positive and 1 when it is zero (at the freshly assigned id,
with state `Running` and `last_tick = now`); and over any registry whose
stored factors are all nonzero (as `Register` guarantees) with distinct
keys, an id is in the due set exactly when its record's stored factor `k`
satisfies `counter % k = 0`. -/
theorem register_normalizes_and_due_set
    (s : LoopState) (now : ℚ) (sender sf : Nat)
    (m : InternalMap) (counter id : Nat)
    (hpos : ∀ e ∈ m, e.2.1 ≠ 0) (hnd : (List.map (fun e => e.1) m).Nodup) :
    mapGet s.amount_of_members
        (processCommand s now (.register sender sf)).1.member_map =
      some (if sf = 0 then 1 else sf,
        { sender := sender, state := .running, last_tick := now }) ∧
    (id ∈ dueMembers m counter ↔
      ∃ k info, mapGet id m = some (k, info) ∧ counter % k = 0) := by
  constructor
  · simp [processCommand, mapInsert, mapGet]
  · induction m with
    | nil => simp [dueMembers, mapGet]
    | cons e rest ih =>
        obtain ⟨ek, esf, einfo⟩ := e
        have hesf : esf ≠ 0 := by
          simpa using hpos (ek, esf, einfo) (List.mem_cons_self _ _)
        have hndc : (ek :: List.map (fun e => e.1) rest).Nodup := by simpa using hnd
        have hek : ek ∉ List.map (fun e => e.1) rest := (List.nodup_cons.mp hndc).1
        have ihr := ih (fun e he => hpos e (List.mem_cons_of_mem _ he))
          (List.nodup_cons.mp hndc).2
        by_cases he : ek = id
        · subst he
          by_cases hd : isDue counter esf = true
          · have hmod : counter % esf = 0 := by
              simpa [isDue, hesf] using hd
            constructor
            · intro _
              exact ⟨esf, einfo, by simp [mapGet_cons], hmod⟩
            · intro _
              simp [dueMembers_cons, hd]
          · have hmod : ¬counter % esf = 0 := by
              intro h
              exact hd (by simp [isDue, hesf, h])
            constructor
            · intro hmem
              rw [dueMembers_cons, if_neg hd] at hmem
              exact absurd (mem_keys_of_mem_dueMembers hmem) hek
            · rintro ⟨k, info, hget, hkmod⟩
              rw [mapGet_cons] at hget
              simp only [if_pos rfl] at hget
              injection hget with hget
              injection hget with h1 h2
              subst h1
              exact absurd hkmod hmod
        · rw [dueMembers_cons, mapGet_cons]
          simp only [if_neg he]
          by_cases hd : isDue counter esf = true
          · rw [if_pos hd]
            rw [List.mem_cons]
            constructor
            · intro h
              rcases h with h | h
              · exact absurd h.symm he
              · exact ihr.mp h
            · intro h
              exact Or.inr (ihr.mpr h)
          · rw [if_neg hd]
            exact ihr

/-- Witness for claim C5: registering with factor 0 from the empty state
stores factor 1; and in the one-member registry with factor 1 the member
is due at counter 1. -/
theorem register_normalizes_and_due_set_witness :
    (mapGet emptyState.amount_of_members
        (processCommand emptyState 0 (.register 9 0)).1.member_map =
      some (1, { sender := 9, state := .running, last_tick := 0 })) ∧
    (0 ∈ dueMembers hiddenMap 1 ↔
      ∃ k info, mapGet 0 hiddenMap = some (k, info) ∧ 1 % k = 0) := by
  have h := register_normalizes_and_due_set emptyState 0 9 0 hiddenMap 1 0
    (by simp [hiddenMap]) (by simp [hiddenMap])
  simpa [emptyState] using h

/-- Drain lemma for the id counter: from any state, the ids handed out
over a command sequence are the successive values of the wrapping
counter, starting at the current `amount_of_members`, one per processed
`Register`. -/
theorem assignedIds_eq_idsFrom (now : ℚ) (cmds : List TickCommand) :
    ∀ s : LoopState,
      assignedIds s now cmds = idsFrom s.amount_of_members (registerCount cmds) := by
  induction cmds with
  | nil =>
      intro s
      simp [assignedIds, drainCommands, registerCount, idsFrom]
  | cons c rest ih =>
      intro s
      cases c with
      | register sender sf =>
          simp only [assignedIds, drainCommands, processCommand, registerCount,
            List.filterMap_append] at ih ⊢
          rw [idsFrom]
          simpa using ih _
      | changeMemberState cid cst =>
          simp only [assignedIds, drainCommands, processCommand, registerCount,
            List.filterMap_append] at ih ⊢
          simpa using ih _
      | unregister cid =>
          simp only [assignedIds, drainCommands, processCommand, registerCount,
            List.filterMap_append] at ih ⊢
          simpa using ih _
      | shutdown =>
          simp [assignedIds, drainCommands, registerCount, idsFrom]

/-- Closed form of `idsFrom` below the modulus: the wrapping counter
started at `a < 2^64` hands out `(a + i) % 2^64` for `i = 0, …, k-1`. -/
theorem idsFrom_eq_map_range (k : Nat) :
    ∀ a : Nat, a < USIZE →
      idsFrom a k = List.map (fun i => (a + i) % USIZE) (List.range k) := by
  induction k with
  | zero =>
      intro a ha
      simp [idsFrom]
  | succ k ih =>
      intro a ha
      rw [idsFrom, List.range_succ_eq_map, List.map_cons, List.map_map,
        ih (wrappingIncr a) (Nat.mod_lt _ (by norm_num [USIZE]))]
      have h0 : (a + 0) % USIZE = a := by
        rw [Nat.add_zero, Nat.mod_eq_of_lt ha]
      rw [h0]
      have hfun : (fun i => (wrappingIncr a + i) % USIZE) =
          ((fun i => (a + i) % USIZE) ∘ Nat.succ) := by
        funext i
        show (wrappingIncr a + i) % USIZE = (a + Nat.succ i) % USIZE
        rw [wrappingIncr, Nat.mod_add_mod]
        congr 1
        omega
      rw [hfun]

/-- Reducing modulo `2^64` is the identity on ids below `2^64`. -/
theorem map_mod_range_of_le {c : Nat} (h : c ≤ USIZE) :
    List.map (fun i => i % USIZE) (List.range c) = List.range c := by
  have hid : ∀ i ∈ List.range c, i % USIZE = i := fun i hi =>
    Nat.mod_eq_of_lt (lt_of_lt_of_le (List.mem_range.mp hi) h)
  calc List.map (fun i => i % USIZE) (List.range c)
      = List.map id (List.range c) := List.map_congr_left hid
    _ = List.range c := List.map_id _

/-- Counterexample to claim C6 as stated: over the explicit sequence of
`2^64 + 1` registrations, the wrapping `fetch_add` counter hands out
`0, 1, …, 2^64 - 1, 0` — the id 0 is assigned twice, so the assigned ids
are neither strictly increasing nor free of reuse. -/
theorem register_ids_wrap_counterexample :
    registerCount (List.replicate (USIZE + 1) (TickCommand.register 0 0)) = USIZE + 1 ∧
    assignedIds (TickManager.initial 0) 0
        (List.replicate (USIZE + 1) (TickCommand.register 0 0)) =
      List.map (fun i => i % USIZE) (List.range (USIZE + 1)) ∧
    ¬ (assignedIds (TickManager.initial 0) 0
        (List.replicate (USIZE + 1) (TickCommand.register 0 0))).Nodup := by
  have hrc : ∀ n : Nat, registerCount (List.replicate n (TickCommand.register 0 0)) = n := by
    intro n
    induction n with
    | zero => rfl
    | succ n ih => simp [List.replicate_succ, registerCount, ih]
  have h := assignedIds_eq_idsFrom 0
    (List.replicate (USIZE + 1) (TickCommand.register 0 0)) (TickManager.initial 0)
  rw [show (TickManager.initial 0).amount_of_members = 0 from rfl, hrc,
    idsFrom_eq_map_range _ 0 (by norm_num [USIZE])] at h
  simp only [Nat.zero_add] at h
  refine ⟨hrc _, h, ?_⟩
  rw [h]
  intro hnd
  rw [List.range_succ, List.map_append] at hnd
  rcases List.nodup_append.mp hnd with ⟨-, -, hdisj⟩
  have h0mem : (0 : Nat) ∈ List.map (fun i => i % USIZE) (List.range USIZE) :=
    List.mem_map.mpr ⟨0, List.mem_range.mpr (by norm_num [USIZE]), by simp⟩
  have h0mem2 : (0 : Nat) ∈ List.map (fun i => i % USIZE) [USIZE] := by
    simp [Nat.mod_self]
  exact hdisj h0mem h0mem2

/-- Claim C6 (amended): ids come from a wrapping (mod `2^64`) counter
that `Unregister` never decrements, so as long as at most `2^64`
registrations are processed the member ids assigned by successive
`Register` commands are exactly `0, 1, 2, …` in arrival order
(`List.range` of the number of registrations): strictly increasing from 0
and never repeated, no matter what other commands are interleaved; the
counter wraps and ids repeat only once registrations exceed `2^64`. -/
theorem register_ids_monotone_from_zero (t0 now : ℚ) (cmds : List TickCommand)
    (hcount : registerCount cmds ≤ USIZE) :
    assignedIds (TickManager.initial t0) now cmds = List.range (registerCount cmds) ∧
    (assignedIds (TickManager.initial t0) now cmds).Nodup := by
  have h := assignedIds_eq_idsFrom now cmds (TickManager.initial t0)
  rw [show (TickManager.initial t0).amount_of_members = 0 from rfl,
    idsFrom_eq_map_range _ 0 (by norm_num [USIZE])] at h
  simp only [Nat.zero_add] at h
  rw [map_mod_range_of_le hcount] at h
  exact ⟨h, h ▸ List.nodup_range _⟩

/-- Witness for the amended claim C6 on a concrete command sequence with
an interleaved unregistration: two registrations get ids 0 and 1. -/
theorem register_ids_monotone_from_zero_witness :
    assignedIds (TickManager.initial 0) 0
        [TickCommand.register 4 1, TickCommand.unregister 0, TickCommand.register 5 2] =
      List.range (registerCount
        [TickCommand.register 4 1, TickCommand.unregister 0, TickCommand.register 5 2]) ∧
    (assignedIds (TickManager.initial 0) 0
        [TickCommand.register 4 1, TickCommand.unregister 0,
         TickCommand.register 5 2]).Nodup :=
  register_ids_monotone_from_zero 0 0
    [TickCommand.register 4 1, TickCommand.unregister 0, TickCommand.register 5 2]
    (by norm_num [registerCount, USIZE])

/-- If an id has no record, it is no entry's key. -/
theorem mapGet_eq_none_keys {m : InternalMap} {id : Nat}
    (h : mapGet id m = none) : ∀ e ∈ m, e.1 ≠ id := by
  induction m with
  | nil => simp
  | cons e rest ih =>
      rw [mapGet_cons] at h
      by_cases he : e.1 = id
      · rw [if_pos he] at h
        exact absurd h (by simp)
      · rw [if_neg he] at h
        intro e' he'
        rcases List.mem_cons.mp he' with rfl | hmem
        · exact he
        · exact ih h e' hmem

/-- `ChangeMemberState` on a key no entry has leaves the registry
untouched. -/
theorem setStateAt_absent {id : Nat} {st : MemberState} {m : InternalMap}
    (h : ∀ e ∈ m, e.1 ≠ id) : setStateAt id st m = m := by
  induction m with
  | nil => rfl
  | cons e rest ih =>
      have hne : ¬(e.1 = id) := h e (List.mem_cons_self _ _)
      simp only [setStateAt, if_neg hne]
      rw [ih fun e' he' => h e' (List.mem_cons_of_mem _ he')]

/-- `HashMap::remove` on a key no entry has leaves the registry
untouched. -/
theorem mapRemove_absent {id : Nat} {m : InternalMap}
    (h : ∀ e ∈ m, e.1 ≠ id) : mapRemove id m = m := by
  unfold mapRemove
  apply List.filter_eq_self.mpr
  intro e he
  simpa using h e he

/-- Claim C7: `ChangeMemberState` and `Unregister` on an id with no
record are silent no-ops: the whole loop state is returned unchanged and
no reply is produced. -/
theorem absent_id_commands_noop (s : LoopState) (now : ℚ) (id : Nat) (st : MemberState)
    (habs : mapGet id s.member_map = none) :
    processCommand s now (.changeMemberState id st) = (s, []) ∧
    processCommand s now (.unregister id) = (s, []) := by
  have hk := mapGet_eq_none_keys habs
  constructor
  · simp [processCommand, setStateAt_absent hk]
  · simp [processCommand, mapRemove_absent hk]

/-- Witness for claim C7: id 5 has no record in the one-member registry. -/
theorem absent_id_commands_noop_witness :
    processCommand hiddenState 0 (.changeMemberState 5 .finished) = (hiddenState, []) ∧
    processCommand hiddenState 0 (.unregister 5) = (hiddenState, []) :=
  absent_id_commands_noop hiddenState 0 5 .finished rfl

/-- Unfolding lemma: a receive result other than a `Tick` reply makes the
wait loop retry on the rest of the sequence. -/
theorem waitLoop_cons_not_tick {r : RecvResult} (hr : r ≠ .reply .tick)
    (rest : List RecvResult) :
    waitLoop (r :: rest) = Option.map (fun i => i + 1) (waitLoop rest) := by
  cases r with
  | timeout => rfl
  | reply x =>
      cases x with
      | tick => exact absurd rfl hr
      | selfID n => rfl
      | memberID n => rfl

/-- The wait loop breaks exactly at the first `Tick` in the receive
sequence. -/
theorem waitLoop_eq_some_iff (stream : List RecvResult) (i : Nat) :
    waitLoop stream = some i ↔
      stream.get? i = some (.reply .tick) ∧
      ∀ j, j < i → stream.get? j ≠ some (.reply .tick) := by
  induction stream generalizing i with
  | nil => simp [waitLoop]
  | cons r rest ih =>
      by_cases hr : r = .reply .tick
      · subst hr
        cases i with
        | zero => simp [waitLoop]
        | succ i =>
            simp only [waitLoop, List.get?_cons_succ]
            constructor
            · intro h
              simp at h
            · rintro ⟨-, hbefore⟩
              exact absurd rfl (hbefore 0 (Nat.succ_pos i))
      · rw [waitLoop_cons_not_tick hr]
        cases i with
        | zero =>
            simp only [Option.map_eq_some', List.get?_cons_zero]
            constructor
            · rintro ⟨a, -, hcontra⟩
              omega
            · rintro ⟨hget, -⟩
              injection hget with hget
              exact absurd hget hr
        | succ i =>
            rw [Option.map_eq_some']
            constructor
            · rintro ⟨a, ha, haeq⟩
              have haa : a = i := by omega
              rw [haa] at ha
              have hrest := (ih i).mp ha
              refine ⟨by simpa using hrest.1, ?_⟩
              intro j hj
              cases j with
              | zero =>
                  simp only [List.get?_cons_zero]
                  intro hh
                  injection hh with hh
                  exact hr hh
              | succ j =>
                  simp only [List.get?_cons_succ]
                  exact hrest.2 j (by omega)
            · rintro ⟨hget, hbefore⟩
              refine ⟨i, (ih i).mpr ⟨by simpa using hget, ?_⟩, rfl⟩
              intro j hj
              have := hbefore (j + 1) (by omega)
              simpa using this

/-- If the receive sequence holds no `Tick`, the wait loop never breaks. -/
theorem waitLoop_eq_none_iff (stream : List RecvResult) :
    waitLoop stream = none ↔ ∀ j, stream.get? j ≠ some (.reply .tick) := by
  induction stream with
  | nil => simp [waitLoop]
  | cons r rest ih =>
      by_cases hr : r = .reply .tick
      · subst hr
        constructor
        · intro h
          simp [waitLoop] at h
        · intro h
          exact absurd rfl (h 0)
      · rw [waitLoop_cons_not_tick hr, Option.map_eq_none', ih]
        constructor
        · intro h j
          cases j with
          | zero =>
              simp only [List.get?_cons_zero]
              intro hh
              injection hh with hh
              exact hr hh
          | succ j =>
              simpa using h j
        · intro h j
          have := h (j + 1)
          simpa using this

/-- Claim C9: with the manager alive, `wait_for_tick` returns normally,
the first and only command it sends is `ChangeMemberState(id, Finished)`,
and the retry loop yields `some i` exactly when position `i` is the first
`Tick` in the receive sequence (every earlier receive being a timeout or
a non-`Tick` reply), and yields nothing when the sequence holds no
`Tick`: it never returns on anything but a `Tick`. -/
theorem wait_for_tick_returns_only_on_tick (id : Nat) (stream : List RecvResult) :
    (wait_for_tick true id stream).1 = .returned ∧
    (wait_for_tick true id stream).2.1 = [.changeMemberState id .finished] ∧
    (∀ i, (wait_for_tick true id stream).2.2 = some i ↔
      (stream.get? i = some (.reply .tick) ∧
        ∀ j, j < i → stream.get? j ≠ some (.reply .tick))) ∧
    ((wait_for_tick true id stream).2.2 = none ↔
      ∀ j, stream.get? j ≠ some (.reply .tick)) := by
  refine ⟨rfl, rfl, ?_, ?_⟩
  · intro i
    exact waitLoop_eq_some_iff stream i
  · exact waitLoop_eq_none_iff stream

/-- Witness for claim C9 on the concrete receive sequence
`[timeout, Tick]`: the call survives the timeout and returns at index 1. -/
theorem wait_for_tick_returns_only_on_tick_witness :
    (wait_for_tick true 0 [RecvResult.timeout, RecvResult.reply .tick]).1 = .returned ∧
    (wait_for_tick true 0 [RecvResult.timeout, RecvResult.reply .tick]).2.1 =
      [.changeMemberState 0 .finished] ∧
    (∀ i, (wait_for_tick true 0 [RecvResult.timeout, RecvResult.reply .tick]).2.2 = some i ↔
      ([RecvResult.timeout, RecvResult.reply .tick].get? i = some (.reply .tick) ∧
        ∀ j, j < i →
          [RecvResult.timeout, RecvResult.reply .tick].get? j ≠ some (.reply .tick))) ∧
    ((wait_for_tick true 0 [RecvResult.timeout, RecvResult.reply .tick]).2.2 = none ↔
      ∀ j, [RecvResult.timeout, RecvResult.reply .tick].get? j ≠ some (.reply .tick)) :=
  wait_for_tick_returns_only_on_tick 0 [RecvResult.timeout, RecvResult.reply .tick]

/-- Updating a present id rewrites exactly its state field: the stored
speed factor, reply channel and last-tick time survive. -/
theorem mapGet_setStateAt_self {id : Nat} {st : MemberState} {m : InternalMap}
    {sf : Nat} {info : MemberInfo} (h : mapGet id m = some (sf, info)) :
    mapGet id (setStateAt id st m) = some (sf, { info with state := st }) := by
  induction m with
  | nil => simp [mapGet] at h
  | cons e rest ih =>
      obtain ⟨k, esf, einfo⟩ := e
      by_cases he : k = id
      · subst he
        simp only [mapGet_cons, if_pos rfl] at h
        injection h with h
        injection h with h1 h2
        subst h1
        subst h2
        simp [setStateAt, mapGet_cons]
      · simp only [mapGet_cons, if_neg he] at h
        simpa [setStateAt, he, mapGet_cons] using ih h

/-- A state update at one id leaves every other id's lookup unchanged. -/
theorem mapGet_setStateAt_ne {id j : Nat} (st : MemberState) (m : InternalMap)
    (hne : j ≠ id) : mapGet j (setStateAt id st m) = mapGet j m := by
  induction m with
  | nil => rfl
  | cons e rest ih =>
      by_cases he : e.1 = id
      · have hej : ¬(e.1 = j) := fun h => hne (h ▸ he)
        simp only [setStateAt, if_pos he, mapGet_cons, if_neg hej]
      · by_cases hej : e.1 = j
        · simp only [setStateAt, if_neg he, mapGet_cons, if_pos hej]
        · simp only [setStateAt, if_neg he, mapGet_cons, if_neg hej]
          exact ih

/-- Claim C10: processing `ChangeMemberState(id, state)` for a registered
id sends no reply and rewrites only the state field of that member's
record — its speed factor, reply channel and last-tick timestamp, every
other member's lookup, and the loop's counter, id counter and stored
instant are all unchanged. -/
theorem change_state_updates_only_state (s : LoopState) (now : ℚ) (id : Nat)
    (st : MemberState) (sf : Nat) (info : MemberInfo)
    (hget : mapGet id s.member_map = some (sf, info)) :
    (processCommand s now (.changeMemberState id st)).2 = [] ∧
    mapGet id (processCommand s now (.changeMemberState id st)).1.member_map =
      some (sf, { info with state := st }) ∧
    (∀ j, j ≠ id →
      mapGet j (processCommand s now (.changeMemberState id st)).1.member_map =
        mapGet j s.member_map) ∧
    (processCommand s now (.changeMemberState id st)).1.amount_of_members =
      s.amount_of_members ∧
    (processCommand s now (.changeMemberState id st)).1.instant = s.instant ∧
    (processCommand s now (.changeMemberState id st)).1.main_tick_counter =
      s.main_tick_counter := by
  refine ⟨rfl, ?_, ?_, rfl, rfl, rfl⟩
  · simpa [processCommand] using mapGet_setStateAt_self hget
  · intro j hj
    simpa [processCommand] using mapGet_setStateAt_ne st s.member_map hj

/-- Witness for claim C10 at the one-member registry: flipping member 0
to `Finished` keeps its factor, channel and last-tick time, and leaves
the absent id 3 absent. -/
theorem change_state_updates_only_state_witness :
    (processCommand hiddenState 0 (.changeMemberState 0 .finished)).2 = [] ∧
    mapGet 0 (processCommand hiddenState 0 (.changeMemberState 0 .finished)).1.member_map =
      some (1, { sender := 7, state := .finished, last_tick := 0 }) ∧
    (∀ j, j ≠ 0 →
      mapGet j (processCommand hiddenState 0 (.changeMemberState 0 .finished)).1.member_map =
        mapGet j hiddenState.member_map) ∧
    (processCommand hiddenState 0 (.changeMemberState 0 .finished)).1.amount_of_members =
      hiddenState.amount_of_members ∧
    (processCommand hiddenState 0 (.changeMemberState 0 .finished)).1.instant =
      hiddenState.instant ∧
    (processCommand hiddenState 0 (.changeMemberState 0 .finished)).1.main_tick_counter =
      hiddenState.main_tick_counter :=
  change_state_updates_only_state hiddenState 0 0 .finished 1
    { sender := 7, state := .hidden, last_tick := 0 } rfl

end TickManagerRs
